import Mathlib

/-!
Verification of the soil-layout / pile-foundation application.

Each Python function named in the claims is embedded as a Lean definition.
Mutable state (Python in-place updates on dicts and objects) is made
explicit: functions that the source mutates are embedded as functions
returning the updated value, and controller entry points return the
post-state of their `params` argument alongside their result.  Fallible
Python code (raising exceptions) is embedded with an `Except`/`Option`
codomain.  Machine reals of the source are embedded as `Rat` (no bit-level
floating-point behaviour is claimed by any of the statements proved here).
-/

namespace PileFoundations

/-- Decidable equality for `Except`, used to evaluate embedded functions on
concrete inputs in witnesses and counterexamples. -/
instance instDecEqExcept {ε α : Type} [DecidableEq ε] [DecidableEq α] :
    DecidableEq (Except ε α)
  | .error a, .error b => decidable_of_iff (a = b) (by simp)
  | .error _, .ok _ => isFalse (fun h => by cases h)
  | .ok _, .error _ => isFalse (fun h => by cases h)
  | .ok a, .ok b => decidable_of_iff (a = b) (by simp)

/-! ## Measurement data: `CPT.filter_nones_from_params_dict` (src/app/cpt_file/model.py)

The raw `params['measurement_data']` is a dict mapping signal names to
parallel value lists; `None` entries are embedded as `Option.none`.  The
dict preserves insertion order, so it is embedded as an association list.
The value type of the signals is kept as a type parameter `α`. -/

/-- A raw measurement dict: signal name to list of (possibly missing) values. -/
abbrev MeasurementData (α : Type) := List (String × List (Option α))

/-- Number of row indices visited by `zip(*raw_dict['measurement_data'].values())`:
Python `zip` truncates to the shortest list, and yields nothing when there are
no signals at all. -/
def pyZipLen (md : MeasurementData α) : Nat :=
  match md.map (fun s => s.2.length) with
  | [] => 0
  | x :: xs => xs.foldl Nat.min x

/-- Whether the zipped row at `i` contains a `None` in some signal
(the `if None in items` test of the source). -/
def rowHasNone (md : MeasurementData α) (i : Nat) : Bool :=
  md.any (fun s =>
    match s.2.get? i with
    | some none => true
    | _ => false)

/-- First pass of the source: collect the row indices to remove, in ascending
order (`enumerate` order). -/
def rows_to_be_removed (md : MeasurementData α) : List Nat :=
  (List.range (pyZipLen md)).filter (rowHasNone md)

/-- Second pass of the source: `for row in reversed(rows_to_be_removed):` delete
that index from every signal list (`del raw_dict['measurement_data'][signal][row]`). -/
def deleteRows (md : MeasurementData α) (rows : List Nat) : MeasurementData α :=
  rows.reverse.foldl (fun acc r => acc.map (fun s => (s.1, s.2.eraseIdx r))) md

/-- Embedding of `CPT.filter_nones_from_params_dict`.  The body of the Python
function contains no `raise` and every deletion happens at a valid index, so
the function always returns normally; the `Except` codomain records that it
returns a cleaned record set rather than raising. -/
def filter_nones_from_params_dict (md : MeasurementData α) :
    Except String (MeasurementData α) :=
  .ok (deleteRows md (rows_to_be_removed md))

/-- Specification-side description of row removal: keep exactly the rows whose
index is not marked bad, in their original relative order. -/
def removeRowsSpec (bad : Nat → Bool) (l : List α) : List α :=
  (l.enum.filter (fun q => !(bad q.1))).map Prod.snd

/-! Helper lemmas about deleting a descending list of indices. -/

theorem eraseIdx_append_last (init : List α) (a : α) :
    (init ++ [a]).eraseIdx init.length = init := by
  induction init with
  | nil => rfl
  | cons x xs ih => simpa [List.eraseIdx] using ih

theorem eraseIdx_append_of_lt (init : List α) (l' : List α) (i : Nat)
    (h : i < init.length) :
    (init ++ l').eraseIdx i = init.eraseIdx i ++ l' := by
  induction init generalizing i with
  | nil => simp at h
  | cons x xs ih =>
    cases i with
    | zero => simp [List.eraseIdx]
    | succ j =>
      have hj : j < xs.length := by simpa using h
      simp [List.eraseIdx, ih j hj]

/-- Folding deletions at a strictly descending list of indices, all inside
`init`, does not disturb a trailing segment. -/
theorem foldl_eraseIdx_append (is : List Nat) (init : List α) (tail : List α)
    (hp : is.Pairwise (fun i j => j < i)) (hlt : ∀ i ∈ is, i < init.length) :
    is.foldl (fun l r => l.eraseIdx r) (init ++ tail)
      = (is.foldl (fun l r => l.eraseIdx r) init) ++ tail := by
  induction is generalizing init with
  | nil => rfl
  | cons i rest ih =>
    have hi : i < init.length := hlt i (by simp)
    have hstep : (init ++ tail).eraseIdx i = init.eraseIdx i ++ tail :=
      eraseIdx_append_of_lt init tail i hi
    have hrest : ∀ j ∈ rest, j < (init.eraseIdx i).length := by
      intro j hj
      have hji : j < i := (List.pairwise_cons.mp hp).1 j hj
      have : (init.eraseIdx i).length = init.length - 1 := by
        simpa using List.length_eraseIdx_of_lt hi
      omega
    have hp' : rest.Pairwise (fun i j => j < i) := (List.pairwise_cons.mp hp).2
    simp only [List.foldl_cons, hstep]
    exact ih (init.eraseIdx i) hp' hrest

/-- Core lemma: collecting the bad indices from `range n` in ascending order and
then deleting them in descending order is the same as filtering by index. -/
theorem foldl_eraseIdx_filter_range (p : Nat → Bool) :
    ∀ (n : Nat) (l : List α), l.length = n →
    ((List.range n).filter p).reverse.foldl (fun l r => l.eraseIdx r) l
      = (l.enum.filter (fun q => !(p q.1))).map Prod.snd := by
  intro n
  induction n with
  | zero =>
    intro l hl
    have : l = [] := List.length_eq_zero.mp hl
    subst this; rfl
  | succ m ih =>
    intro l hl
    rcases List.eq_nil_or_concat l with h | ⟨init, a, rfl⟩
    · subst h; simp at hl
    have hinit : init.length = m := by
      have := hl; simp [List.concat_eq_append] at this; omega
    have hdesc : (((List.range m).filter p).reverse).Pairwise (fun i j => j < i) := by
      refine List.pairwise_reverse.mpr ?_
      exact List.Pairwise.sublist (List.filter_sublist _) (List.pairwise_lt_range m)
    have hmem : ∀ i ∈ ((List.range m).filter p).reverse, i < init.length := by
      intro i hi
      rw [List.mem_reverse, List.mem_filter, List.mem_range] at hi
      omega
    have henum : (init ++ [a]).enum = init.enum ++ [(init.length, a)] := by
      rw [List.enum_append]; rfl
    rw [List.concat_eq_append] at hl ⊢
    rw [List.range_succ, List.filter_append, List.reverse_append]
    by_cases hp : p m
    · have hfil : List.filter p [m] = [m] := by simp [hp]
      have e1 : (init ++ [a]).eraseIdx m = init := by
        rw [← hinit]; exact eraseIdx_append_last init a
      rw [hfil]
      simp only [List.reverse_cons, List.reverse_nil, List.nil_append]
      rw [List.singleton_append, List.foldl_cons, e1, ih init hinit, henum,
        List.filter_append]
      have hfa : List.filter (fun q => !(p q.1)) [(init.length, a)] = [] := by
        simp [hinit, hp]
      rw [hfa, List.append_nil]
    · have hfil : List.filter p [m] = [] := by simp [hp]
      rw [hfil]
      simp only [List.reverse_nil, List.nil_append]
      rw [foldl_eraseIdx_append _ init [a] hdesc hmem, ih init hinit, henum,
        List.filter_append]
      have hfa : List.filter (fun q => !(p q.1)) [(init.length, a)]
          = [(init.length, a)] := by
        simp [hinit, hp]
      rw [hfa, List.map_append]
      rfl

/-- Deleting rows from the whole dict is deleting them in each signal list. -/
theorem deleteRows_map (md : MeasurementData α) (rows : List Nat) :
    deleteRows md rows
      = md.map (fun s => (s.1, rows.reverse.foldl (fun l r => l.eraseIdx r) s.2)) := by
  unfold deleteRows
  generalize rows.reverse = rs
  induction rs generalizing md with
  | nil => simp
  | cons r rest ih =>
    simp only [List.foldl_cons]
    rw [ih]
    simp [List.map_map, Function.comp]

/-- When every signal has the same length `n`, the zip length is `n`. -/
theorem pyZipLen_eq (md : MeasurementData α) (n : Nat) (hne : md ≠ [])
    (h : ∀ s ∈ md, s.2.length = n) : pyZipLen md = n := by
  unfold pyZipLen
  cases md with
  | nil => exact absurd rfl hne
  | cons s rest =>
    simp only [List.map_cons]
    have hs : s.2.length = n := h s (by simp)
    have : ∀ l ∈ rest.map (fun s => s.2.length), l = n := by
      intro l hl
      rcases List.mem_map.mp hl with ⟨t, ht, rfl⟩
      exact h t (by simp [ht])
    rw [hs]
    generalize hrm : rest.map (fun s => s.2.length) = ls at this
    clear hrm
    induction ls with
    | nil => rfl
    | cons x xs ih2 =>
      have hx : x = n := this x (by simp)
      subst hx
      simp only [List.foldl_cons, Nat.min_self]
      exact ih2 (fun l hl => this l (by simp [hl]))

/-- C1: for every raw params dict whose measurement_data maps signal names to
parallel value lists (all of length `n`), `filter_nones_from_params_dict`
removes exactly those row indices at which any signal holds a `None`; the
removal deletes the full row from every signal list atomically, preserves the
relative order of the remaining rows (the result of each signal is its
index-filtered sublist), and the embedded implementation does so by first
collecting the indices in one pass and then deleting them in descending
index order. -/
theorem filter_nones_characterisation (md : MeasurementData α) (n : Nat)
    (h : ∀ s ∈ md, s.2.length = n) :
    filter_nones_from_params_dict md
      = .ok (md.map (fun s => (s.1, removeRowsSpec (rowHasNone md) s.2))) := by
  cases hmd : md with
  | nil => rfl
  | cons s0 rest =>
    rw [← hmd]
    have hne : md ≠ [] := by simp [hmd]
    unfold filter_nones_from_params_dict rows_to_be_removed
    rw [pyZipLen_eq md n hne h, deleteRows_map]
    congr 1
    apply List.map_congr_left
    intro s hs
    have hlen : s.2.length = n := h s hs
    rw [foldl_eraseIdx_filter_range (rowHasNone md) n s.2 hlen]
    rfl

/-- A concrete three-row, two-signal measurement dict with one missing value. -/
def exampleMD : MeasurementData Int :=
  [("depth", [some 0, none, some 2]), ("qc", [some 5, some 6, some 7])]

/-- C1 witness: the characterisation applied to `exampleMD`. -/
theorem filter_nones_characterisation_witness :
    (∀ s ∈ exampleMD, s.2.length = 3)
    ∧ filter_nones_from_params_dict exampleMD
        = .ok (exampleMD.map (fun s => (s.1, removeRowsSpec (rowHasNone exampleMD) s.2))) :=
  ⟨by decide, filter_nones_characterisation exampleMD 3 (by decide)⟩

/-- C5 counterexample: `filter_nones_from_params_dict` does not fail on an
empty signal set, nor on signal lists of inconsistent length; in both cases
it silently returns a cleaned record set (the claim asserts it must fail
with `InputError`; no such error exists in the code). -/
theorem filter_nones_no_input_error_counterexample :
    filter_nones_from_params_dict ([] : MeasurementData Int) = .ok []
    ∧ filter_nones_from_params_dict [("depth", [some (0 : Int)]), ("qc", [])]
        = .ok [("depth", [some (0 : Int)]), ("qc", [])] :=
  ⟨rfl, rfl⟩

/-- C5 amended: the measurement-row filter performs no validation and never
raises: it returns a cleaned record set for every input, returning an empty
signal set unchanged (with inconsistent lengths, `zip` truncation means only
row indices below the shortest signal list are examined). -/
theorem filter_nones_never_fails :
    (∀ (α : Type) (md : MeasurementData α), ∃ r, filter_nones_from_params_dict md = .ok r)
    ∧ filter_nones_from_params_dict ([] : MeasurementData Int) = .ok [] :=
  ⟨fun _ _ => ⟨_, rfl⟩, rfl⟩

/-! ## Coordinates: `CPT.wgs_coordinates` and `CPT.get_map_point`
(src/app/cpt_file/model.py)

`parsed_cpt.x_y_coordinates` may be absent (`hasattr` is false, embedded as
the outer `none`) or contain Python `None` components (the inner options).
The geodetic conversion `RDWGSConverter.from_rd_to_wgs` is an external
library call outside this repository and outside the spec's scope; it is
taken as a function parameter `conv`. -/

/-- The parsed GEF data of a CPT, restricted to what the coordinate code reads. -/
structure ParsedCPT (A : Type) where
  x_y_coordinates : Option (Option A × Option A)

/-- The CPT model fields read by the coordinate feature. -/
structure CPTCoord (A : Type) where
  cpt_name : String
  entity_id : Nat
  parsed_cpt : ParsedCPT A

/-- The message of the `UserException` raised by `wgs_coordinates`. -/
def noCoordMsg (c : CPTCoord A) : String :=
  "CPT " ++ c.cpt_name ++ " has no coordinates: please check the GEF file"

/-- Embedding of the `CPT.wgs_coordinates` property: raise a user-facing error
when the attribute is absent or either coordinate is `None`, otherwise convert
and return the lat/lon pair. -/
def wgs_coordinates (conv : A × A → A × A) (c : CPTCoord A) : Except String (A × A) :=
  match c.parsed_cpt.x_y_coordinates with
  | none => .error (noCoordMsg c)
  | some (x?, y?) =>
    match x?, y? with
    | some x, some y => .ok (conv (x, y))
    | _, _ => .error (noCoordMsg c)

/-- A map point as built by `CPT.get_map_point` (lat, lon, title, entity link). -/
structure MapPointModel (A : Type) where
  lat : A
  lon : A
  title : String
  entity_links : List (String × Nat)

/-- Embedding of `CPT.get_map_point`: reads the `wgs_coordinates` property
twice (once for `lat`, once for `lon`); a coordinate error aborts it. -/
def get_map_point (conv : A × A → A × A) (c : CPTCoord A) :
    Except String (MapPointModel A) := do
  let w1 ← wgs_coordinates conv c
  let w2 ← wgs_coordinates conv c
  pure ⟨w1.1, w2.2, c.cpt_name, [(c.cpt_name, c.entity_id)]⟩

/-- C7: when the parsed data has no `x_y_coordinates` attribute or either
coordinate is `None`, `wgs_coordinates` (and hence `get_map_point`) raises a
user-facing error whose message names the CPT and the operation aborts;
conversely, when both coordinates are present it returns the converted
lat/lon pair without raising. -/
theorem wgs_coordinates_error_conditions (A : Type) (conv : A × A → A × A)
    (c : CPTCoord A) :
    ((c.parsed_cpt.x_y_coordinates = none
        ∨ (∃ y, c.parsed_cpt.x_y_coordinates = some (none, y))
        ∨ (∃ x, c.parsed_cpt.x_y_coordinates = some (x, none)))
      → wgs_coordinates conv c = .error (noCoordMsg c)
        ∧ get_map_point conv c = .error (noCoordMsg c))
    ∧ ∀ x y, c.parsed_cpt.x_y_coordinates = some (some x, some y)
        → wgs_coordinates conv c = .ok (conv (x, y))
          ∧ get_map_point conv c
            = .ok ⟨(conv (x, y)).1, (conv (x, y)).2, c.cpt_name,
                [(c.cpt_name, c.entity_id)]⟩ := by
  constructor
  · intro hbad
    have hw : wgs_coordinates conv c = .error (noCoordMsg c) := by
      rcases hbad with h | ⟨y, h⟩ | ⟨x, h⟩
      · simp [wgs_coordinates, h]
      · simp [wgs_coordinates, h]
      · cases x with
        | none => simp [wgs_coordinates, h]
        | some xv => simp [wgs_coordinates, h]
    refine ⟨hw, ?_⟩
    simp only [get_map_point, hw]
    rfl
  · intro x y h
    have hw : wgs_coordinates conv c = .ok (conv (x, y)) := by
      simp [wgs_coordinates, h]
    refine ⟨hw, ?_⟩
    simp only [get_map_point, hw]
    rfl

/-- C7 witness: a CPT with absent coordinates errors with the message naming
it, and a CPT with both coordinates present converts them without raising;
both halves of the theorem are applied at concrete inputs. -/
theorem wgs_coordinates_error_conditions_witness :
    (wgs_coordinates (fun p => p) (⟨"CPT-01", 7, ⟨none⟩⟩ : CPTCoord Int)
        = .error (noCoordMsg (⟨"CPT-01", 7, ⟨none⟩⟩ : CPTCoord Int))
      ∧ get_map_point (fun p => p) (⟨"CPT-01", 7, ⟨none⟩⟩ : CPTCoord Int)
        = .error (noCoordMsg (⟨"CPT-01", 7, ⟨none⟩⟩ : CPTCoord Int)))
    ∧ (wgs_coordinates (fun p => p)
          (⟨"CPT-02", 8, ⟨some (some 3, some 4)⟩⟩ : CPTCoord Int)
        = .ok ((fun p => p) ((3 : Int), (4 : Int)))
      ∧ get_map_point (fun p => p)
          (⟨"CPT-02", 8, ⟨some (some 3, some 4)⟩⟩ : CPTCoord Int)
        = .ok ⟨((fun p => p) ((3 : Int), (4 : Int))).1,
            ((fun p => p) ((3 : Int), (4 : Int))).2, "CPT-02", [("CPT-02", 8)]⟩) :=
  ⟨(wgs_coordinates_error_conditions Int (fun p => p) ⟨"CPT-01", 7, ⟨none⟩⟩).1
      (Or.inl rfl),
    (wgs_coordinates_error_conditions Int (fun p => p)
      ⟨"CPT-02", 8, ⟨some (some 3, some 4)⟩⟩).2 3 4 rfl⟩

/-! ## Soil colours: `get_soil_colors` (src/app/foundation/scia_model.py)

The SoilType catalog `DEFAULT_ROBERTSON_TABLE` lives in
`app/cpt_file/constants.py`, which is not among the provided sources; per the
spec it is a static ordered table of records with a `ui_name` and an rgb
`color`.  The embedding therefore takes the catalog as an argument of that
shape.  For each layer of `params['soil_layout']` the source appends the
layer name (to a local list it never returns) and the top level, and appends
a colour only for each catalog entry whose `ui_name` equals the layer name. -/

/-- One catalog record of the SoilType table (the fields `get_soil_colors` reads). -/
structure SoilTypeRec where
  ui_name : String
  color : Nat × Nat × Nat
deriving DecidableEq

/-- One row of the `params['soil_layout']` table as read by the SCIA model code. -/
structure LayoutRow where
  name : String
  top_of_layer : Rat
deriving DecidableEq

/-- The dict returned by `get_soil_colors` (the `soils` list is collected by
the source but not returned). -/
structure SoilsAndColors where
  colors : List (Nat × Nat × Nat)
  top_levels : List Rat
  surface_level : Rat
  top_elevation : Rat
  bottom_elevation : Rat
deriving DecidableEq

/-- Embedding of `get_soil_colors`: indexing `soil_layout[0]` and
`elevation[0]`, `elevation[-1]` raises on empty lists, hence the `Except`
codomain; otherwise no error is ever raised. -/
def get_soil_colors (table : List SoilTypeRec) (layout : List LayoutRow)
    (elevation : List Rat) : Except String SoilsAndColors :=
  match layout with
  | [] => .error "list index out of range"
  | l0 :: _ =>
    match elevation with
    | [] => .error "list index out of range"
    | e0 :: erest =>
      .ok { colors := layout.flatMap
              (fun r => (table.filter (fun st => st.ui_name == r.name)).map
                (fun st => st.color)),
            top_levels := 0 :: layout.map (fun r => r.top_of_layer),
            surface_level := l0.top_of_layer,
            top_elevation := e0 / 1000,
            bottom_elevation := erest.getLastD e0 / 1000 }

/-- A catalog in the shape the spec gives for `DEFAULT_ROBERTSON_TABLE`
(modelled from the spec; the real constants file is not among the sources). -/
def modelTable : List SoilTypeRec :=
  [⟨"Zand grof", (230, 225, 9)⟩, ⟨"Klei schoon", (180, 180, 80)⟩]

/-- C6 counterexample: with the layer name "Onbekend" absent from the catalog,
`get_soil_colors` returns normally (no error is raised): the layer's name and
top level are passed through while its colour entry is silently omitted
(`colors` has one entry for two layers), contradicting the claim that the
operation fails loudly. -/
theorem get_soil_colors_counterexample :
    get_soil_colors modelTable [⟨"Onbekend", 0⟩, ⟨"Zand grof", -2⟩] [0, -5000]
      = .ok { colors := [(230, 225, 9)], top_levels := [0, 0, -2],
              surface_level := 0, top_elevation := 0, bottom_elevation := -5 }
    ∧ (∀ st ∈ modelTable, st.ui_name ≠ "Onbekend") := by
  constructor
  · have h1 : ("Zand grof" : String) ≠ "Onbekend" := by decide
    have h2 : ("Klei schoon" : String) ≠ "Onbekend" := by decide
    have h3 : ("Klei schoon" : String) ≠ "Zand grof" := by decide
    simp only [get_soil_colors, modelTable, List.flatMap_cons, List.flatMap_nil,
      List.filter_cons, List.filter_nil, List.map_cons, List.map_nil,
      List.getLastD_cons, List.getLastD_nil, List.append_nil, h1, h2, h3,
      beq_iff_eq, if_false, ite_false]
    norm_num
  · decide

theorem sum_le_length_of_le_one (ns : List Nat) (h1 : ∀ x ∈ ns, x ≤ 1) :
    ns.sum ≤ ns.length := by
  induction ns with
  | nil => simp
  | cons x xs ih =>
    have hx : x ≤ 1 := h1 x (by simp)
    have := ih (fun y hy => h1 y (by simp [hy]))
    simp only [List.sum_cons, List.length_cons]
    omega

theorem sum_lt_length_of_exists_zero (ns : List Nat) (h1 : ∀ x ∈ ns, x ≤ 1)
    (h0 : ∃ x ∈ ns, x = 0) : ns.sum < ns.length := by
  induction ns with
  | nil => rcases h0 with ⟨x, hx, _⟩; simp at hx
  | cons x xs ih =>
    have hx : x ≤ 1 := h1 x (by simp)
    have hxs : ∀ y ∈ xs, y ≤ 1 := fun y hy => h1 y (by simp [hy])
    simp only [List.sum_cons, List.length_cons]
    rcases h0 with ⟨z, hz, hz0⟩
    rcases List.mem_cons.mp hz with rfl | hzxs
    · have := sum_le_length_of_le_one xs hxs
      omega
    · have := ih hxs ⟨z, hzxs, hz0⟩
      omega

/-- C6 amended: `get_soil_colors` raises no error for an out-of-catalog layer
name; it returns normally, passes every layer's top level through, and
silently omits the colour entry of the unmatched layer, leaving strictly
fewer colour entries than layers. -/
theorem get_soil_colors_skips_unknown (table : List SoilTypeRec)
    (layout : List LayoutRow) (elevation : List Rat)
    (hl : layout ≠ []) (he : elevation ≠ [])
    (hnodup : (table.map (fun st => st.ui_name)).Nodup)
    (hbad : ∃ r ∈ layout, ∀ st ∈ table, st.ui_name ≠ r.name) :
    ∃ res, get_soil_colors table layout elevation = .ok res
      ∧ res.colors.length < layout.length
      ∧ res.top_levels = 0 :: layout.map (fun r => r.top_of_layer) := by
  cases layout with
  | nil => exact absurd rfl hl
  | cons l0 lrest =>
    cases elevation with
    | nil => exact absurd rfl he
    | cons e0 erest =>
      refine ⟨_, rfl, ?_, rfl⟩
      rw [List.length_flatMap]
      have hle1 : ∀ r : LayoutRow,
          ((table.filter (fun st => st.ui_name == r.name)).map
            (fun st => st.color)).length ≤ 1 := by
        intro r
        rw [List.length_map, ← List.countP_eq_length_filter]
        have hcount : List.countP (fun st => st.ui_name == r.name) table
            = List.count r.name (table.map (fun st => st.ui_name)) := by
          rw [List.count, List.countP_map]
          rfl
        rw [hcount]
        exact List.nodup_iff_count_le_one.mp hnodup r.name
      have hzero : ∃ r ∈ l0 :: lrest,
          ((table.filter (fun st => st.ui_name == r.name)).map
            (fun st => st.color)).length = 0 := by
        rcases hbad with ⟨r, hr, hnone⟩
        refine ⟨r, hr, ?_⟩
        rw [List.length_map, ← List.countP_eq_length_filter]
        have hcount : List.countP (fun st => st.ui_name == r.name) table
            = List.count r.name (table.map (fun st => st.ui_name)) := by
          rw [List.count, List.countP_map]
          rfl
        rw [hcount]
        rw [List.count_eq_zero]
        intro hmem
        rcases List.mem_map.mp hmem with ⟨st, hst, heq⟩
        exact hnone st hst heq
      have hlen : ((l0 :: lrest).map (List.length ∘ fun r =>
            (table.filter (fun st => st.ui_name == r.name)).map
              (fun st => st.color))).length = (l0 :: lrest).length := by
        rw [List.length_map]
      rw [← hlen]
      apply sum_lt_length_of_exists_zero
      · intro x hx
        rcases List.mem_map.mp hx with ⟨r, _, rfl⟩
        exact hle1 r
      · rcases hzero with ⟨r, hr, hz⟩
        exact ⟨_, List.mem_map.mpr ⟨r, hr, rfl⟩, hz⟩

/-- C6 amended witness: the amended theorem applied to the concrete catalog
and layout of the counterexample scenario. -/
theorem get_soil_colors_skips_unknown_witness :
    ([⟨"Onbekend", 0⟩, ⟨"Zand grof", -2⟩] : List LayoutRow) ≠ []
    ∧ ([0, -5000] : List Rat) ≠ []
    ∧ (modelTable.map (fun st => st.ui_name)).Nodup
    ∧ (∃ r ∈ ([⟨"Onbekend", 0⟩, ⟨"Zand grof", -2⟩] : List LayoutRow),
        ∀ st ∈ modelTable, st.ui_name ≠ r.name)
    ∧ ∃ res, get_soil_colors modelTable [⟨"Onbekend", 0⟩, ⟨"Zand grof", -2⟩]
          [0, -5000] = .ok res
        ∧ res.colors.length
            < ([⟨"Onbekend", 0⟩, ⟨"Zand grof", -2⟩] : List LayoutRow).length
        ∧ res.top_levels = 0 :: ([⟨"Onbekend", 0⟩, ⟨"Zand grof", -2⟩]
            : List LayoutRow).map (fun r => r.top_of_layer) :=
  ⟨by decide, by decide, by decide, by decide,
    get_soil_colors_skips_unknown modelTable _ _ (by decide) (by decide)
      (by decide) (by decide)⟩

/-! ## The Soil Layout Engine

The layout engine used by the controllers lives in `viktor.geo.SoilLayout`
plus the repository file `app/cpt_file/soil_layout_conversion_functions.py`;
neither is among the provided sources.  The engine is therefore modelled
from the spec (section 4.3): a layout is an ordered top-to-bottom sequence
of layers, each a depth interval with `top_of_layer` above `bottom_of_layer`
in elevation terms, contiguous (each layer's bottom is the next layer's
top). -/

/-- A contiguous depth interval with one soil type; elevations with
`top_of_layer > bottom_of_layer`. -/
structure Layer where
  top_of_layer : Rat
  bottom_of_layer : Rat
  soil : String
deriving DecidableEq

/-- Thickness of a layer. -/
def Layer.thickness (l : Layer) : Rat := l.top_of_layer - l.bottom_of_layer

/-- An ordered top-to-bottom sequence of layers. -/
abbrev SoilLayout := List Layer

/-- Executable check that all adjacent pairs of a list satisfy `p`. -/
def chainB (p : β → β → Bool) : List β → Bool
  | [] => true
  | [_] => true
  | a :: b :: rest => p a b && chainB p (b :: rest)

theorem chainB_iff (p : β → β → Bool) :
    ∀ (l : List β), chainB p l = true ↔ List.Chain' (fun a b => p a b = true) l
  | [] => by simp [chainB]
  | [a] => by simp [chainB]
  | a :: b :: rest => by
    rw [chainB, Bool.and_eq_true, chainB_iff p (b :: rest), List.chain'_cons]

theorem chainB_iff_prop (R : β → β → Prop) [DecidableRel R] (l : List β) :
    chainB (fun a b => decide (R a b)) l = true ↔ List.Chain' R l := by
  rw [chainB_iff]
  constructor
  · exact fun h => h.imp (fun a b hab => of_decide_eq_true hab)
  · exact fun h => h.imp (fun a b hab => decide_eq_true hab)

/-- The contiguity invariant: each layer's bottom is the next layer's top. -/
def Contiguous (L : SoilLayout) : Prop :=
  List.Chain' (fun a b => a.bottom_of_layer = b.top_of_layer) L

instance (L : SoilLayout) : Decidable (Contiguous L) :=
  decidable_of_iff
    (chainB (fun a b => decide (a.bottom_of_layer = b.top_of_layer)) L = true)
    (by unfold Contiguous; exact chainB_iff_prop _ L)

/-- Top of the first layer (0 for an empty layout). -/
def headTop (L : SoilLayout) : Rat :=
  match L with
  | [] => 0
  | l :: _ => l.top_of_layer

/-- Bottom of the last layer (0 for an empty layout). -/
def lastBottom (L : SoilLayout) : Rat :=
  match L.getLast? with
  | some l => l.bottom_of_layer
  | none => 0

/-- One editable table row: top of layer plus soil-type name (the bottom is
implicit). -/
structure TableRow where
  top_of_layer : Rat
  soil : String
deriving DecidableEq

/-- Modelled from the spec: `to_table_rows(layout)` projects one row per
layer carrying only `top_of_layer` and `soil_type`, in top-to-bottom order. -/
def to_table_rows (L : SoilLayout) : List TableRow :=
  L.map (fun l => ⟨l.top_of_layer, l.soil⟩)

/-- Builds the layers of `from_table_rows`: each row's bottom is the next
row's top, and the last row's bottom is the supplied bottom of the layout. -/
def buildLayers (bottom : Rat) : List TableRow → SoilLayout
  | [] => []
  | [r] => [⟨r.top_of_layer, bottom, r.soil⟩]
  | r :: r2 :: rest => ⟨r.top_of_layer, r2.top_of_layer, r.soil⟩ :: buildLayers bottom (r2 :: rest)

/-- Modelled from the spec: `from_table_rows(bottom_of_layout, rows)`
reconstructs a layout from ordered editable rows plus an explicit bottom
bound, failing with a `LayoutError` if no row is supplied or the rows are
not strictly depth-ordered. -/
def from_table_rows (bottom : Rat) (rows : List TableRow) : Except String SoilLayout :=
  if rows = [] then .error "LayoutError: at least one row is required"
  else if chainB (fun a b => decide (b.top_of_layer < a.top_of_layer)) rows
  then .ok (buildLayers bottom rows)
  else .error "LayoutError: rows are not strictly depth-ordered"

/-- Modelled from the spec: one step of the thin-layer filter.  Scanning
top-to-bottom, the first layer thinner than `t` is merged into a neighbour:
the topmost layer can only merge downward, the bottommost only upward, and
an interior thin layer merges into the thicker of its two immediate
neighbours (the upper one on a tie). -/
def mergeStep (t : Rat) : SoilLayout → SoilLayout
  | [] => []
  | [a] => [a]
  | a :: b :: rest =>
    if a.thickness < t then
      ⟨a.top_of_layer, b.bottom_of_layer, b.soil⟩ :: rest
    else if b.thickness < t then
      match rest with
      | [] => [⟨a.top_of_layer, b.bottom_of_layer, a.soil⟩]
      | c :: rest' =>
        if c.thickness ≤ a.thickness then
          ⟨a.top_of_layer, b.bottom_of_layer, a.soil⟩ :: c :: rest'
        else
          a :: ⟨b.top_of_layer, c.bottom_of_layer, c.soil⟩ :: rest'
    else
      a :: mergeStep t (b :: rest)

/-- Modelled from the spec: repeat the merge step until stable (merging can
create new thin layers, so the scan is repeated). -/
def filterThin (t : Rat) (L : SoilLayout) : SoilLayout :=
  if h : (mergeStep t L).length < L.length then filterThin t (mergeStep t L) else L
termination_by L.length
decreasing_by exact h

/-- Modelled from the spec: coalesce any two directly adjacent layers of
identical soil type into one. -/
def coalesce : SoilLayout → SoilLayout
  | [] => []
  | [a] => [a]
  | a :: b :: rest =>
    if a.soil = b.soil then coalesce (⟨a.top_of_layer, b.bottom_of_layer, a.soil⟩ :: rest)
    else a :: coalesce (b :: rest)
termination_by L => L.length

/-- Modelled from the spec: `filter_on_thickness(layout, min_thickness,
merge_adjacent_same_soil)`; this is `SoilLayout.filter_layers_on_thickness`
of the engine. -/
def filter_on_thickness (t : Rat) (merge_adjacent_same_soil : Bool)
    (L : SoilLayout) : SoilLayout :=
  if merge_adjacent_same_soil then coalesce (filterThin t L) else filterThin t L

theorem lastBottom_cons_cons (a b : Layer) (rest : SoilLayout) :
    lastBottom (a :: b :: rest) = lastBottom (b :: rest) := by
  simp [lastBottom, List.getLast?_cons_cons]

/-- In a contiguous layout of layers of positive thickness, tops are strictly
decreasing (the layout is ordered top-to-bottom). -/
theorem chain'_tops_of_contiguous (L : SoilLayout) (hcont : Contiguous L)
    (hpos : ∀ l ∈ L, l.bottom_of_layer < l.top_of_layer) :
    List.Chain' (fun a b => b.top_of_layer < a.top_of_layer) L := by
  induction L with
  | nil => simp
  | cons a rest ih =>
    cases rest with
    | nil => simp
    | cons b rest' =>
      obtain ⟨h1, h2⟩ := List.chain'_cons.mp hcont
      refine List.chain'_cons.mpr ⟨?_, ih h2 (fun l hl => hpos l (by simp [hl]))⟩
      have ha : a.bottom_of_layer < a.top_of_layer := hpos a (by simp)
      rw [← h1]
      exact ha

theorem buildLayers_to_table_rows (L : SoilLayout) (b : Rat)
    (hcont : Contiguous L) (hb : L ≠ [] → lastBottom L = b) :
    buildLayers b (to_table_rows L) = L := by
  induction L with
  | nil => rfl
  | cons l1 rest ih =>
    cases rest with
    | nil =>
      have hb1 : l1.bottom_of_layer = b := by
        have := hb (by simp)
        simpa [lastBottom, List.getLast?] using this
      simp [to_table_rows, buildLayers, ← hb1]
    | cons l2 rest' =>
      have hcont' : Contiguous (l2 :: rest') := (List.chain'_cons.mp hcont).2
      have h12 : l1.bottom_of_layer = l2.top_of_layer := (List.chain'_cons.mp hcont).1
      have hb' : (l2 :: rest') ≠ [] → lastBottom (l2 :: rest') = b := by
        intro _
        rw [← lastBottom_cons_cons l1 l2 rest']
        exact hb (by simp)
      have ihx := ih hcont' hb'
      simp only [to_table_rows, List.map_cons] at ihx ⊢
      rw [buildLayers, ihx, ← h12]

/-- C3: for every nonempty contiguous layout with layers of positive
thickness, projecting to editable table rows and reconstructing with
`from_table_rows` at the layout's own bottom bound yields a layout with
identical layer boundaries and soil-type assignments. -/
theorem to_from_table_rows_roundtrip (L : SoilLayout) (hne : L ≠ [])
    (hcont : Contiguous L)
    (hpos : ∀ l ∈ L, l.bottom_of_layer < l.top_of_layer) :
    from_table_rows (lastBottom L) (to_table_rows L) = .ok L := by
  cases L with
  | nil => exact absurd rfl hne
  | cons l0 rest =>
    have hchain : List.Chain' (fun a b => b.top_of_layer < a.top_of_layer)
        (to_table_rows (l0 :: rest)) := by
      unfold to_table_rows
      rw [List.chain'_map]
      exact chain'_tops_of_contiguous _ hcont hpos
    have hbuild := buildLayers_to_table_rows (l0 :: rest) (lastBottom (l0 :: rest))
      hcont (fun _ => rfl)
    have hrows_ne : to_table_rows (l0 :: rest) ≠ [] := by
      simp [to_table_rows]
    have hcb : chainB (fun a b => decide (b.top_of_layer < a.top_of_layer))
        (to_table_rows (l0 :: rest)) = true :=
      (chainB_iff_prop (fun a b : TableRow => b.top_of_layer < a.top_of_layer) _).mpr hchain
    unfold from_table_rows
    rw [if_neg hrows_ne, if_pos hcb, hbuild]

/-- C3 witness: the round trip on a concrete two-layer layout. -/
theorem to_from_table_rows_roundtrip_witness :
    (([⟨0, -2, "Zand grof"⟩, ⟨-2, -5, "Klei schoon"⟩] : SoilLayout) ≠ []
      ∧ Contiguous [⟨0, -2, "Zand grof"⟩, ⟨-2, -5, "Klei schoon"⟩]
      ∧ ∀ l ∈ ([⟨0, -2, "Zand grof"⟩, ⟨-2, -5, "Klei schoon"⟩] : SoilLayout),
          l.bottom_of_layer < l.top_of_layer)
    ∧ from_table_rows (lastBottom [⟨0, -2, "Zand grof"⟩, ⟨-2, -5, "Klei schoon"⟩])
        (to_table_rows [⟨0, -2, "Zand grof"⟩, ⟨-2, -5, "Klei schoon"⟩])
      = .ok [⟨0, -2, "Zand grof"⟩, ⟨-2, -5, "Klei schoon"⟩] :=
  ⟨⟨by decide, by decide, by decide⟩,
    to_from_table_rows_roundtrip _ (by decide) (by decide) (by decide)⟩

/-! ### Properties of the thin-layer filter -/

theorem mergeStep_thin_top (t : Rat) (a b : Layer) (rest : SoilLayout)
    (h : a.thickness < t) :
    mergeStep t (a :: b :: rest)
      = ⟨a.top_of_layer, b.bottom_of_layer, b.soil⟩ :: rest := by
  simp [mergeStep, h]

theorem mergeStep_thin_bot (t : Rat) (a b : Layer)
    (h1 : ¬a.thickness < t) (h2 : b.thickness < t) :
    mergeStep t [a, b] = [⟨a.top_of_layer, b.bottom_of_layer, a.soil⟩] := by
  simp [mergeStep, h1, h2]

theorem mergeStep_mid_up (t : Rat) (a b c : Layer) (rest' : SoilLayout)
    (h1 : ¬a.thickness < t) (h2 : b.thickness < t)
    (hc : c.thickness ≤ a.thickness) :
    mergeStep t (a :: b :: c :: rest')
      = ⟨a.top_of_layer, b.bottom_of_layer, a.soil⟩ :: c :: rest' := by
  simp [mergeStep, h1, h2, hc]

theorem mergeStep_mid_down (t : Rat) (a b c : Layer) (rest' : SoilLayout)
    (h1 : ¬a.thickness < t) (h2 : b.thickness < t)
    (hc : ¬c.thickness ≤ a.thickness) :
    mergeStep t (a :: b :: c :: rest')
      = a :: ⟨b.top_of_layer, c.bottom_of_layer, c.soil⟩ :: rest' := by
  simp [mergeStep, h1, h2, hc]

theorem mergeStep_skip (t : Rat) (a b : Layer) (rest : SoilLayout)
    (h1 : ¬a.thickness < t) (h2 : ¬b.thickness < t) :
    mergeStep t (a :: b :: rest) = a :: mergeStep t (b :: rest) := by
  cases rest with
  | nil => simp [mergeStep, h1, h2]
  | cons c rest' => simp [mergeStep, h1, h2]

theorem mergeStep_length_le (t : Rat) (L : SoilLayout) :
    (mergeStep t L).length ≤ L.length := by
  induction L using mergeStep.induct t with
  | case1 => simp [mergeStep]
  | case2 a => simp [mergeStep]
  | case3 a b rest h => rw [mergeStep_thin_top t a b rest h]; simp
  | case4 a b h1 h2 => rw [mergeStep_thin_bot t a b h1 h2]; simp
  | case5 a b h1 h2 c rest' hc => rw [mergeStep_mid_up t a b c rest' h1 h2 hc]; simp
  | case6 a b h1 h2 c rest' hc => rw [mergeStep_mid_down t a b c rest' h1 h2 hc]; simp
  | case7 a b rest h1 h2 ih =>
    rw [mergeStep_skip t a b rest h1 h2]
    simpa using ih

theorem mergeStep_eq_of_length (t : Rat) (L : SoilLayout)
    (h : (mergeStep t L).length = L.length) : mergeStep t L = L := by
  induction L using mergeStep.induct t with
  | case1 => rfl
  | case2 a => rfl
  | case3 a b rest hthin => rw [mergeStep_thin_top t a b rest hthin] at h ⊢; simp at h
  | case4 a b h1 h2 => rw [mergeStep_thin_bot t a b h1 h2] at h ⊢; simp at h
  | case5 a b h1 h2 c rest' hc =>
    rw [mergeStep_mid_up t a b c rest' h1 h2 hc] at h ⊢; simp at h
  | case6 a b h1 h2 c rest' hc =>
    rw [mergeStep_mid_down t a b c rest' h1 h2 hc] at h ⊢; simp at h
  | case7 a b rest h1 h2 ih =>
    rw [mergeStep_skip t a b rest h1 h2] at h ⊢
    simp only [List.length_cons, Nat.add_right_cancel_iff] at h
    rw [ih h]

theorem mergeStep_fixpoint (t : Rat) (L : SoilLayout)
    (h : mergeStep t L = L) : L.length ≤ 1 ∨ ∀ l ∈ L, t ≤ l.thickness := by
  induction L using mergeStep.induct t with
  | case1 => left; simp
  | case2 a => left; simp
  | case3 a b rest hthin =>
    rw [mergeStep_thin_top t a b rest hthin] at h
    have := congrArg List.length h
    simp at this
  | case4 a b h1 h2 =>
    rw [mergeStep_thin_bot t a b h1 h2] at h
    have := congrArg List.length h
    simp at this
  | case5 a b h1 h2 c rest' hc =>
    rw [mergeStep_mid_up t a b c rest' h1 h2 hc] at h
    have := congrArg List.length h
    simp at this
  | case6 a b h1 h2 c rest' hc =>
    rw [mergeStep_mid_down t a b c rest' h1 h2 hc] at h
    have := congrArg List.length h
    simp at this
  | case7 a b rest h1 h2 ih =>
    rw [mergeStep_skip t a b rest h1 h2, List.cons.injEq] at h
    rcases ih h.2 with hlen | hall
    · have hrest : rest = [] := by
        cases rest with
        | nil => rfl
        | cons x xs => simp at hlen
      subst hrest
      right
      intro l hl
      rcases List.mem_cons.mp hl with rfl | hl'
      · exact le_of_not_lt h1
      · rcases List.mem_cons.mp hl' with rfl | hl''
        · exact le_of_not_lt h2
        · simp at hl''
    · right
      intro l hl
      rcases List.mem_cons.mp hl with rfl | hl'
      · exact le_of_not_lt h1
      · exact hall l hl'

theorem mergeStep_ne_nil (t : Rat) (L : SoilLayout) (hne : L ≠ []) :
    mergeStep t L ≠ [] := by
  induction L using mergeStep.induct t with
  | case1 => exact absurd rfl hne
  | case2 a => simp [mergeStep]
  | case3 a b rest h => rw [mergeStep_thin_top t a b rest h]; simp
  | case4 a b h1 h2 => rw [mergeStep_thin_bot t a b h1 h2]; simp
  | case5 a b h1 h2 c rest' hc => rw [mergeStep_mid_up t a b c rest' h1 h2 hc]; simp
  | case6 a b h1 h2 c rest' hc => rw [mergeStep_mid_down t a b c rest' h1 h2 hc]; simp
  | case7 a b rest h1 h2 ih => rw [mergeStep_skip t a b rest h1 h2]; simp

/-- The merge step preserves the head top elevation. -/
theorem mergeStep_headTop (t : Rat) (L : SoilLayout) :
    headTop (mergeStep t L) = headTop L := by
  induction L using mergeStep.induct t with
  | case1 => rfl
  | case2 a => rfl
  | case3 a b rest h => rw [mergeStep_thin_top t a b rest h]; rfl
  | case4 a b h1 h2 => rw [mergeStep_thin_bot t a b h1 h2]; rfl
  | case5 a b h1 h2 c rest' hc => rw [mergeStep_mid_up t a b c rest' h1 h2 hc]; rfl
  | case6 a b h1 h2 c rest' hc => rw [mergeStep_mid_down t a b c rest' h1 h2 hc]; rfl
  | case7 a b rest h1 h2 ih => rw [mergeStep_skip t a b rest h1 h2]; rfl

theorem lastBottom_cons_of_ne_nil (a : Layer) (rest : SoilLayout) (h : rest ≠ []) :
    lastBottom (a :: rest) = lastBottom rest := by
  cases rest with
  | nil => exact absurd rfl h
  | cons b rest' => exact lastBottom_cons_cons a b rest'

/-- The merge step preserves the bottom elevation of the last layer. -/
theorem mergeStep_lastBottom (t : Rat) (L : SoilLayout) :
    lastBottom (mergeStep t L) = lastBottom L := by
  induction L using mergeStep.induct t with
  | case1 => rfl
  | case2 a => rfl
  | case3 a b rest h =>
    rw [mergeStep_thin_top t a b rest h]
    cases rest with
    | nil => simp [lastBottom, List.getLast?]
    | cons c rest' => rw [lastBottom_cons_cons, lastBottom_cons_cons, lastBottom_cons_cons]
  | case4 a b h1 h2 =>
    rw [mergeStep_thin_bot t a b h1 h2]
    simp [lastBottom, List.getLast?, List.getLast?_cons_cons]
  | case5 a b h1 h2 c rest' hc =>
    rw [mergeStep_mid_up t a b c rest' h1 h2 hc]
    rw [lastBottom_cons_cons, lastBottom_cons_cons, lastBottom_cons_cons]
  | case6 a b h1 h2 c rest' hc =>
    rw [mergeStep_mid_down t a b c rest' h1 h2 hc]
    rw [lastBottom_cons_cons, lastBottom_cons_cons, lastBottom_cons_cons]
    cases rest' with
    | nil => simp [lastBottom, List.getLast?]
    | cons d rest'' => rw [lastBottom_cons_cons, lastBottom_cons_cons]
  | case7 a b rest h1 h2 ih =>
    rw [mergeStep_skip t a b rest h1 h2]
    rw [lastBottom_cons_of_ne_nil a (mergeStep t (b :: rest))
      (mergeStep_ne_nil t (b :: rest) (by simp)), ih, lastBottom_cons_cons]

/-- The merge step preserves contiguity. -/
theorem mergeStep_contiguous (t : Rat) (L : SoilLayout) (hc : Contiguous L) :
    Contiguous (mergeStep t L) := by
  induction L using mergeStep.induct t with
  | case1 => exact hc
  | case2 a => exact hc
  | case3 a b rest h =>
    rw [mergeStep_thin_top t a b rest h]
    have h2 := (List.chain'_cons.mp hc).2
    cases rest with
    | nil => simp [Contiguous]
    | cons c rest' =>
      obtain ⟨hbc, hrest⟩ := List.chain'_cons.mp h2
      exact List.chain'_cons.mpr ⟨hbc, hrest⟩
  | case4 a b h1 h2 => rw [mergeStep_thin_bot t a b h1 h2]; simp [Contiguous]
  | case5 a b h1 h2 c rest' hc' =>
    rw [mergeStep_mid_up t a b c rest' h1 h2 hc']
    obtain ⟨hab, hrest⟩ := List.chain'_cons.mp hc
    obtain ⟨hbc, hrest'⟩ := List.chain'_cons.mp hrest
    exact List.chain'_cons.mpr ⟨hbc, hrest'⟩
  | case6 a b h1 h2 hc' rest' hcc =>
    rw [mergeStep_mid_down t a b hc' rest' h1 h2 hcc]
    obtain ⟨hab, hrest⟩ := List.chain'_cons.mp hc
    obtain ⟨hbc, hrest'⟩ := List.chain'_cons.mp hrest
    refine List.chain'_cons.mpr ⟨hab, ?_⟩
    cases rest' with
    | nil => simp [Contiguous]
    | cons d rest'' =>
      obtain ⟨hcd, hrest''⟩ := List.chain'_cons.mp hrest'
      exact List.chain'_cons.mpr ⟨hcd, hrest''⟩
  | case7 a b rest h1 h2 ih =>
    rw [mergeStep_skip t a b rest h1 h2]
    obtain ⟨hab, hrest⟩ := List.chain'_cons.mp hc
    have htail := ih hrest
    have hne := mergeStep_ne_nil t (b :: rest) (by simp)
    cases hms : mergeStep t (b :: rest) with
    | nil => exact absurd hms hne
    | cons x xs =>
      rw [hms] at htail
      refine List.chain'_cons.mpr ⟨?_, htail⟩
      have : headTop (mergeStep t (b :: rest)) = headTop (b :: rest) :=
        mergeStep_headTop t (b :: rest)
      rw [hms] at this
      simp only [headTop] at this
      rw [this]
      exact hab

/-- The merge step preserves positivity of thickness (a merged layer spans
the two merged intervals, so contiguity makes its thickness their sum). -/
theorem mergeStep_pos (t : Rat) (L : SoilLayout) (hc : Contiguous L)
    (hp : ∀ l ∈ L, 0 < l.thickness) :
    ∀ l ∈ mergeStep t L, 0 < l.thickness := by
  induction L using mergeStep.induct t with
  | case1 => exact hp
  | case2 a => exact hp
  | case3 a b rest h =>
    rw [mergeStep_thin_top t a b rest h]
    intro l hl
    rcases List.mem_cons.mp hl with rfl | hl'
    · have hab := (List.chain'_cons.mp hc).1
      have ha := hp a (by simp)
      have hb := hp b (by simp)
      simp only [Layer.thickness] at ha hb ⊢
      rw [← hab] at hb
      linarith
    · exact hp l (by simp [hl'])
  | case4 a b h1 h2 =>
    rw [mergeStep_thin_bot t a b h1 h2]
    intro l hl
    rcases List.mem_cons.mp hl with rfl | hl'
    · have hab := (List.chain'_cons.mp hc).1
      have ha := hp a (by simp)
      have hb := hp b (by simp)
      simp only [Layer.thickness] at ha hb ⊢
      rw [← hab] at hb
      linarith
    · simp at hl'
  | case5 a b h1 h2 c rest' hc' =>
    rw [mergeStep_mid_up t a b c rest' h1 h2 hc']
    intro l hl
    rcases List.mem_cons.mp hl with rfl | hl'
    · have hab := (List.chain'_cons.mp hc).1
      have ha := hp a (by simp)
      have hb := hp b (by simp)
      simp only [Layer.thickness] at ha hb ⊢
      rw [← hab] at hb
      linarith
    · exact hp l (by simp [List.mem_cons.mp hl'])
  | case6 a b h1 h2 c rest' hcc =>
    rw [mergeStep_mid_down t a b c rest' h1 h2 hcc]
    intro l hl
    rcases List.mem_cons.mp hl with heq | hl'
    · rw [heq]; exact hp a (by simp)
    · rcases List.mem_cons.mp hl' with rfl | hl''
      · have hrest := (List.chain'_cons.mp hc).2
        have hbc := (List.chain'_cons.mp hrest).1
        have hb := hp b (by simp)
        have hcp := hp c (by simp)
        simp only [Layer.thickness] at hb hcp ⊢
        rw [← hbc] at hcp
        linarith
      · exact hp l (by simp [hl''])
  | case7 a b rest h1 h2 ih =>
    rw [mergeStep_skip t a b rest h1 h2]
    intro l hl
    rcases List.mem_cons.mp hl with heq | hl'
    · rw [heq]; exact hp a (by simp)
    · exact ih (List.chain'_cons.mp hc).2 (fun x hx => hp x (by simp [hx])) l hl'

/-- All structural invariants of `filterThin`: the repeated merge preserves
nonemptiness, contiguity, the covered depth interval and positive thickness,
and ends with either a single layer or no layer thinner than `t`. -/
theorem filterThin_props (t : Rat) : ∀ (L : SoilLayout), L ≠ [] → Contiguous L →
    (∀ l ∈ L, 0 < l.thickness) →
    filterThin t L ≠ [] ∧ Contiguous (filterThin t L)
    ∧ headTop (filterThin t L) = headTop L
    ∧ lastBottom (filterThin t L) = lastBottom L
    ∧ (∀ l ∈ filterThin t L, 0 < l.thickness)
    ∧ ((filterThin t L).length = 1 ∨ ∀ l ∈ filterThin t L, t ≤ l.thickness) := by
  intro L
  induction L using filterThin.induct t with
  | case1 x hlt ih =>
    intro hne hc hp
    have hx : filterThin t x = filterThin t (mergeStep t x) := by
      rw [filterThin, dif_pos hlt]
    have hne' : mergeStep t x ≠ [] := mergeStep_ne_nil t x hne
    have hc' : Contiguous (mergeStep t x) := mergeStep_contiguous t x hc
    have hp' : ∀ l ∈ mergeStep t x, 0 < l.thickness := mergeStep_pos t x hc hp
    obtain ⟨i1, i2, i3, i4, i5, i6⟩ := ih hne' hc' hp'
    rw [hx]
    exact ⟨i1, i2, by rw [i3, mergeStep_headTop],
      by rw [i4, mergeStep_lastBottom], i5, i6⟩
  | case2 x hnlt =>
    intro hne hc hp
    have hx : filterThin t x = x := by
      rw [filterThin, dif_neg hnlt]
    have hfix : mergeStep t x = x :=
      mergeStep_eq_of_length t x
        (le_antisymm (mergeStep_length_le t x) (not_lt.mp hnlt))
    have hdisj := mergeStep_fixpoint t x hfix
    rw [hx]
    refine ⟨hne, hc, rfl, rfl, hp, ?_⟩
    rcases hdisj with hlen | hall
    · left
      have : 1 ≤ x.length := by
        cases x with
        | nil => exact absurd rfl hne
        | cons y ys => simp
      omega
    · right
      exact hall

/-! ### Properties of adjacent same-soil coalescing -/

theorem coalesce_nil : coalesce [] = [] := by rw [coalesce]

theorem coalesce_single (a : Layer) : coalesce [a] = [a] := by rw [coalesce]

theorem coalesce_cons_same (a b : Layer) (rest : SoilLayout) (h : a.soil = b.soil) :
    coalesce (a :: b :: rest)
      = coalesce (⟨a.top_of_layer, b.bottom_of_layer, a.soil⟩ :: rest) := by
  rw [coalesce, if_pos h]

theorem coalesce_cons_diff (a b : Layer) (rest : SoilLayout) (h : ¬a.soil = b.soil) :
    coalesce (a :: b :: rest) = a :: coalesce (b :: rest) := by
  rw [coalesce, if_neg h]

theorem coalesce_props : ∀ (L : SoilLayout), L ≠ [] → Contiguous L →
    coalesce L ≠ [] ∧ Contiguous (coalesce L)
    ∧ headTop (coalesce L) = headTop L
    ∧ lastBottom (coalesce L) = lastBottom L := by
  intro L
  induction L using coalesce.induct with
  | case1 =>
    intro hne _
    exact absurd rfl hne
  | case2 a =>
    intro _ hc
    rw [coalesce_single]
    exact ⟨by simp, hc, rfl, rfl⟩
  | case3 a b rest hsoil ih =>
    intro hne hc
    obtain ⟨hab, hrest⟩ := List.chain'_cons.mp hc
    have hc' : Contiguous (⟨a.top_of_layer, b.bottom_of_layer, a.soil⟩ :: rest) := by
      cases rest with
      | nil => simp [Contiguous]
      | cons c rest' =>
        obtain ⟨hbc, hrest'⟩ := List.chain'_cons.mp hrest
        exact List.chain'_cons.mpr ⟨hbc, hrest'⟩
    obtain ⟨i1, i2, i3, i4⟩ := ih (by simp) hc'
    rw [coalesce_cons_same a b rest hsoil]
    refine ⟨i1, i2, by rw [i3]; rfl, ?_⟩
    rw [i4]
    cases rest with
    | nil => simp [lastBottom, List.getLast?, List.getLast?_cons_cons]
    | cons c rest' =>
      rw [lastBottom_cons_cons, lastBottom_cons_cons, lastBottom_cons_cons]
  | case4 a b rest hsoil ih =>
    intro hne hc
    obtain ⟨hab, hrest⟩ := List.chain'_cons.mp hc
    obtain ⟨i1, i2, i3, i4⟩ := ih (by simp) hrest
    rw [coalesce_cons_diff a b rest hsoil]
    refine ⟨by simp, ?_, rfl, ?_⟩
    · cases hco : coalesce (b :: rest) with
      | nil => exact absurd hco i1
      | cons x xs =>
        rw [hco] at i2 i3
        simp only [headTop] at i3
        exact List.chain'_cons.mpr ⟨by rw [i3]; exact hab, i2⟩
    · rw [lastBottom_cons_of_ne_nil a (coalesce (b :: rest)) i1, i4,
        lastBottom_cons_cons]

theorem coalesce_pos : ∀ (L : SoilLayout), Contiguous L →
    (∀ l ∈ L, 0 < l.thickness) → ∀ l ∈ coalesce L, 0 < l.thickness := by
  intro L
  induction L using coalesce.induct with
  | case1 =>
    intro _ _ l hl
    rw [coalesce_nil] at hl
    simp at hl
  | case2 a =>
    intro _ hp l hl
    rw [coalesce_single] at hl
    exact hp l hl
  | case3 a b rest hsoil ih =>
    intro hc hp
    obtain ⟨hab, hrest⟩ := List.chain'_cons.mp hc
    have hc' : Contiguous (⟨a.top_of_layer, b.bottom_of_layer, a.soil⟩ :: rest) := by
      cases rest with
      | nil => simp [Contiguous]
      | cons c rest' => exact List.chain'_cons.mpr (List.chain'_cons.mp hrest)
    have hp' : ∀ l ∈ (⟨a.top_of_layer, b.bottom_of_layer, a.soil⟩ :: rest : SoilLayout),
        0 < l.thickness := by
      intro l hl
      rcases List.mem_cons.mp hl with rfl | hl'
      · have ha := hp a (by simp)
        have hb := hp b (by simp)
        simp only [Layer.thickness] at ha hb ⊢
        rw [← hab] at hb
        linarith
      · exact hp l (by simp [hl'])
    rw [coalesce_cons_same a b rest hsoil]
    exact ih hc' hp'
  | case4 a b rest hsoil ih =>
    intro hc hp
    rw [coalesce_cons_diff a b rest hsoil]
    intro l hl
    rcases List.mem_cons.mp hl with heq | hl'
    · rw [heq]; exact hp a (by simp)
    · exact ih (List.chain'_cons.mp hc).2 (fun x hx => hp x (by simp [hx])) l hl'

theorem coalesce_ge (t : Rat) : ∀ (L : SoilLayout), Contiguous L →
    (∀ l ∈ L, 0 < l.thickness) → (∀ l ∈ L, t ≤ l.thickness) →
    ∀ l ∈ coalesce L, t ≤ l.thickness := by
  intro L
  induction L using coalesce.induct with
  | case1 =>
    intro _ _ _ l hl
    rw [coalesce_nil] at hl
    simp at hl
  | case2 a =>
    intro _ _ hge l hl
    rw [coalesce_single] at hl
    exact hge l hl
  | case3 a b rest hsoil ih =>
    intro hc hp hge
    obtain ⟨hab, hrest⟩ := List.chain'_cons.mp hc
    have hc' : Contiguous (⟨a.top_of_layer, b.bottom_of_layer, a.soil⟩ :: rest) := by
      cases rest with
      | nil => simp [Contiguous]
      | cons c rest' => exact List.chain'_cons.mpr (List.chain'_cons.mp hrest)
    have hp' : ∀ l ∈ (⟨a.top_of_layer, b.bottom_of_layer, a.soil⟩ :: rest : SoilLayout),
        0 < l.thickness := by
      intro l hl
      rcases List.mem_cons.mp hl with rfl | hl'
      · have ha := hp a (by simp)
        have hb := hp b (by simp)
        simp only [Layer.thickness] at ha hb ⊢
        rw [← hab] at hb
        linarith
      · exact hp l (by simp [hl'])
    have hge' : ∀ l ∈ (⟨a.top_of_layer, b.bottom_of_layer, a.soil⟩ :: rest : SoilLayout),
        t ≤ l.thickness := by
      intro l hl
      rcases List.mem_cons.mp hl with rfl | hl'
      · have ha := hge a (by simp)
        have hb := hp b (by simp)
        simp only [Layer.thickness] at ha hb ⊢
        rw [← hab] at hb
        linarith
      · exact hge l (by simp [hl'])
    rw [coalesce_cons_same a b rest hsoil]
    exact ih hc' hp' hge'
  | case4 a b rest hsoil ih =>
    intro hc hp hge
    rw [coalesce_cons_diff a b rest hsoil]
    intro l hl
    rcases List.mem_cons.mp hl with heq | hl'
    · rw [heq]; exact hge a (by simp)
    · exact ih (List.chain'_cons.mp hc).2 (fun x hx => hp x (by simp [hx]))
        (fun x hx => hge x (by simp [hx])) l hl'

/-- C4: for every nonempty contiguous layout with layers of positive
thickness and every `min_thickness`, the filtered layout (with or without
merging of adjacent same-soil layers) is nonempty, contiguous (no gaps),
ordered top-to-bottom, covers exactly the original depth interval, and
contains no layer thinner than `min_thickness` unless the whole layout is
thinner than `min_thickness`. -/
theorem filter_on_thickness_props (t : Rat) (m : Bool) (L : SoilLayout)
    (hne : L ≠ []) (hc : Contiguous L) (hp : ∀ l ∈ L, 0 < l.thickness) :
    filter_on_thickness t m L ≠ []
    ∧ Contiguous (filter_on_thickness t m L)
    ∧ headTop (filter_on_thickness t m L) = headTop L
    ∧ lastBottom (filter_on_thickness t m L) = lastBottom L
    ∧ List.Chain' (fun x y => y.top_of_layer < x.top_of_layer)
        (filter_on_thickness t m L)
    ∧ ((∀ l ∈ filter_on_thickness t m L, t ≤ l.thickness)
        ∨ headTop L - lastBottom L < t) := by
  obtain ⟨f1, f2, f3, f4, f5, f6⟩ := filterThin_props t L hne hc hp
  have hthin : ((∀ l ∈ filterThin t L, t ≤ l.thickness)
      ∨ headTop L - lastBottom L < t) := by
    rcases f6 with hlen | hall
    · obtain ⟨x, hx⟩ := List.length_eq_one.mp hlen
      by_cases hxt : t ≤ x.thickness
      · left
        intro l hl
        rw [hx] at hl
        rcases List.mem_singleton.mp hl with rfl
        exact hxt
      · right
        have htop : headTop (filterThin t L) = x.top_of_layer := by
          rw [hx]; rfl
        have hbot : lastBottom (filterThin t L) = x.bottom_of_layer := by
          rw [hx]; simp [lastBottom, List.getLast?]
        rw [← f3, ← f4, htop, hbot]
        exact lt_of_not_le (fun hcon => hxt (by simpa [Layer.thickness] using hcon))
    · left
      exact hall
  cases m with
  | false =>
    have hfm : filter_on_thickness t false L = filterThin t L := by
      simp [filter_on_thickness]
    rw [hfm]
    refine ⟨f1, f2, f3, f4, ?_, hthin⟩
    exact chain'_tops_of_contiguous _ f2
      (fun l hl => by have := f5 l hl; simp only [Layer.thickness] at this; linarith)
  | true =>
    have hfm : filter_on_thickness t true L = coalesce (filterThin t L) := by
      simp [filter_on_thickness]
    obtain ⟨g1, g2, g3, g4⟩ := coalesce_props (filterThin t L) f1 f2
    have gpos := coalesce_pos (filterThin t L) f2 f5
    rw [hfm]
    refine ⟨g1, g2, by rw [g3, f3], by rw [g4, f4], ?_, ?_⟩
    · exact chain'_tops_of_contiguous _ g2
        (fun l hl => by have := gpos l hl; simp only [Layer.thickness] at this; linarith)
    · rcases hthin with hall | hsmall
      · left
        exact coalesce_ge t (filterThin t L) f2 f5 hall
      · right
        exact hsmall

/-- C4 witness: the filter applied to a concrete layout with one thin layer
(50 mm of sand above 950 mm of clay, `min_thickness` 100 mm). -/
theorem filter_on_thickness_props_witness :
    (([⟨0, -50, "Zand grof"⟩, ⟨-50, -1000, "Klei schoon"⟩] : SoilLayout) ≠ []
      ∧ Contiguous [⟨0, -50, "Zand grof"⟩, ⟨-50, -1000, "Klei schoon"⟩]
      ∧ ∀ l ∈ ([⟨0, -50, "Zand grof"⟩, ⟨-50, -1000, "Klei schoon"⟩] : SoilLayout),
          0 < l.thickness)
    ∧ (filter_on_thickness 100 true [⟨0, -50, "Zand grof"⟩, ⟨-50, -1000, "Klei schoon"⟩] ≠ []
      ∧ Contiguous (filter_on_thickness 100 true
          [⟨0, -50, "Zand grof"⟩, ⟨-50, -1000, "Klei schoon"⟩])
      ∧ headTop (filter_on_thickness 100 true
            [⟨0, -50, "Zand grof"⟩, ⟨-50, -1000, "Klei schoon"⟩])
          = headTop [⟨0, -50, "Zand grof"⟩, ⟨-50, -1000, "Klei schoon"⟩]
      ∧ lastBottom (filter_on_thickness 100 true
            [⟨0, -50, "Zand grof"⟩, ⟨-50, -1000, "Klei schoon"⟩])
          = lastBottom [⟨0, -50, "Zand grof"⟩, ⟨-50, -1000, "Klei schoon"⟩]
      ∧ List.Chain' (fun x y => y.top_of_layer < x.top_of_layer)
          (filter_on_thickness 100 true
            [⟨0, -50, "Zand grof"⟩, ⟨-50, -1000, "Klei schoon"⟩])
      ∧ ((∀ l ∈ filter_on_thickness 100 true
              [⟨0, -50, "Zand grof"⟩, ⟨-50, -1000, "Klei schoon"⟩], 100 ≤ l.thickness)
          ∨ headTop [⟨0, -50, "Zand grof"⟩, ⟨-50, -1000, "Klei schoon"⟩]
              - lastBottom [⟨0, -50, "Zand grof"⟩, ⟨-50, -1000, "Klei schoon"⟩] < 100)) :=
  ⟨⟨by decide, by decide, by norm_num [Layer.thickness]⟩,
    filter_on_thickness_props 100 true _ (by decide) (by decide)
      (by norm_num [Layer.thickness])⟩

/-! ## Controller operations (src/app/cpt_file/controller.py)

The conversion helpers live in `app/cpt_file/soil_layout_conversion_functions.py`,
a repository file not under the provided sources; they are modelled from the
spec (sections 4.3 and 4.4): user-facing table rows are in meters, the
internal layout in millimeters, with a uniform scale factor of 1000.
Python mutation is made explicit: each controller entry point returns the
post-state of its `params` argument next to its result.  The in-place
`filter_layers_on_thickness` call of the source acts on the locally
constructed layout, which the embedding reflects by rebinding the local. -/

/-- Modelled from the spec: build a millimeter layout from the meter table
rows and the meter bottom bound (`convert_input_table_field_to_soil_layout`). -/
def convert_input_table_field_to_soil_layout (bottom_m : Rat)
    (rows : List TableRow) : Except String SoilLayout :=
  from_table_rows (1000 * bottom_m) (rows.map (fun r => ⟨1000 * r.top_of_layer, r.soil⟩))

/-- Modelled from the spec: scale every layer boundary from millimeters to
meters (`convert_soil_layout_from_mm_to_meter`). -/
def convert_soil_layout_from_mm_to_meter (L : SoilLayout) : SoilLayout :=
  L.map (fun l => ⟨l.top_of_layer / 1000, l.bottom_of_layer / 1000, l.soil⟩)

/-- Modelled from the spec: project a layout to editable table rows
(`convert_soil_layout_to_input_table_field`). -/
def convert_soil_layout_to_input_table_field (L : SoilLayout) : List TableRow :=
  to_table_rows L

/-- The persisted params of a CPT entity, restricted to the fields the two
controller operations read, plus fields they must leave alone. -/
structure CPTParams where
  soil_layout : List TableRow
  soil_layout_original : SoilLayout
  bottom_of_soil_layout_user : Rat
  min_layer_thickness : Rat
  ground_water_level : Rat
  cpt_name : String
deriving DecidableEq

/-- The `SetParametersResult` of the thickness filter: it carries only the
`soil_layout` key. -/
structure SetParametersResultFilter where
  soil_layout : List TableRow
deriving DecidableEq

/-- Embedding of `CPTFileController.filter_soil_layout_on_min_layer_thickness`:
builds a fresh layout from the table rows, filters it (the source updates the
local object in place), converts to meter and to table rows, and proposes the
new rows; the post-state of `params` is returned as the second component. -/
def filter_soil_layout_on_min_layer_thickness (p : CPTParams) :
    Except String (SetParametersResultFilter × CPTParams) := do
  let soil_layout_user ← convert_input_table_field_to_soil_layout
      p.bottom_of_soil_layout_user p.soil_layout
  let soil_layout_user := filter_on_thickness p.min_layer_thickness true soil_layout_user
  let soil_layout_user := convert_soil_layout_from_mm_to_meter soil_layout_user
  pure ({ soil_layout := convert_soil_layout_to_input_table_field soil_layout_user }, p)

/-- C2: the thickness-filter operation is pure with respect to its input
state: whenever it succeeds, the params it was given are returned unchanged
(the layout data it was given is not modified), and the proposed rows are a
new value computed functionally from a freshly built layout. -/
theorem filter_controller_pure (p : CPTParams) (r : SetParametersResultFilter)
    (p' : CPTParams)
    (h : filter_soil_layout_on_min_layer_thickness p = .ok (r, p')) :
    p' = p
    ∧ ∃ L0, convert_input_table_field_to_soil_layout
          p.bottom_of_soil_layout_user p.soil_layout = .ok L0
        ∧ r.soil_layout = convert_soil_layout_to_input_table_field
            (convert_soil_layout_from_mm_to_meter
              (filter_on_thickness p.min_layer_thickness true L0)) := by
  cases hconv : convert_input_table_field_to_soil_layout
      p.bottom_of_soil_layout_user p.soil_layout with
  | error e =>
    rw [filter_soil_layout_on_min_layer_thickness, hconv] at h
    cases h
  | ok L0 =>
    rw [filter_soil_layout_on_min_layer_thickness, hconv] at h
    cases h
    exact ⟨rfl, L0, rfl, rfl⟩

/-- A concrete params record used to exercise the controller operations. -/
def exampleParams : CPTParams :=
  { soil_layout := [⟨0, "Zand grof"⟩],
    soil_layout_original := [⟨0, -1000, "Zand grof"⟩],
    bottom_of_soil_layout_user := -1,
    min_layer_thickness := 100,
    ground_water_level := -1,
    cpt_name := "CPT-01" }

/-- C2 witness: the purity theorem applied to `exampleParams`. -/
theorem filter_controller_pure_witness :
    ∃ r : SetParametersResultFilter,
      filter_soil_layout_on_min_layer_thickness exampleParams = .ok (r, exampleParams)
      ∧ (exampleParams = exampleParams
        ∧ ∃ L0, convert_input_table_field_to_soil_layout
              exampleParams.bottom_of_soil_layout_user exampleParams.soil_layout = .ok L0
            ∧ r.soil_layout = convert_soil_layout_to_input_table_field
                (convert_soil_layout_from_mm_to_meter
                  (filter_on_thickness exampleParams.min_layer_thickness true L0))) := by
  have hconv : convert_input_table_field_to_soil_layout
      exampleParams.bottom_of_soil_layout_user exampleParams.soil_layout
      = .ok [⟨0, -1000, "Zand grof"⟩] := by
    rw [convert_input_table_field_to_soil_layout, from_table_rows]
    norm_num [exampleParams, chainB, buildLayers]
  have hthin : filterThin 100 [(⟨0, -1000, "Zand grof"⟩ : Layer)]
      = [⟨0, -1000, "Zand grof"⟩] := by
    rw [filterThin]
    norm_num [mergeStep]
  have hfix : filter_on_thickness 100 true [(⟨0, -1000, "Zand grof"⟩ : Layer)]
      = [⟨0, -1000, "Zand grof"⟩] := by
    rw [filter_on_thickness, if_pos rfl, hthin, coalesce_single]
  have hrun : filter_soil_layout_on_min_layer_thickness exampleParams
      = .ok ({ soil_layout := [⟨0, "Zand grof"⟩] }, exampleParams) := by
    rw [filter_soil_layout_on_min_layer_thickness, hconv]
    show Except.ok _ = _
    have : exampleParams.min_layer_thickness = 100 := rfl
    rw [this, hfix]
    norm_num [convert_soil_layout_from_mm_to_meter,
      convert_soil_layout_to_input_table_field, to_table_rows]
  exact ⟨_, hrun, filter_controller_pure exampleParams _ _ hrun⟩

/-- The `SetParametersResult` of the reset operation: it carries exactly the
`soil_layout` and `bottom_of_soil_layout_user` keys. -/
structure SetParametersResultReset where
  soil_layout : List TableRow
  bottom_of_soil_layout_user : Rat
deriving DecidableEq

/-- Embedding of `CPTFileController.reset_soil_layout_user`: recomputes the
table rows from the stored original layout and re-proposes the existing
bottom bound; the post-state of `params` is the second component. -/
def reset_soil_layout_user (p : CPTParams) :
    SetParametersResultReset × CPTParams :=
  ({ soil_layout := convert_soil_layout_to_input_table_field
       (convert_soil_layout_from_mm_to_meter p.soil_layout_original),
     bottom_of_soil_layout_user := p.bottom_of_soil_layout_user }, p)

/-- Applying a `SetParametersResult` to the stored params updates exactly the
keys it carries. -/
def applyResetResult (r : SetParametersResultReset) (p : CPTParams) : CPTParams :=
  { p with soil_layout := r.soil_layout,
           bottom_of_soil_layout_user := r.bottom_of_soil_layout_user }

/-- C8: `reset_soil_layout_user` never overwrites the stored original layout:
it returns the params unchanged, its result carries only the table rows
(recomputed from `soil_layout_original`) and the existing bottom bound, and
applying the result leaves `soil_layout_original` and every other field
unchanged, so the original layout remains independently restorable. -/
theorem reset_preserves_original (p : CPTParams) :
    (reset_soil_layout_user p).2 = p
    ∧ (reset_soil_layout_user p).1.bottom_of_soil_layout_user
        = p.bottom_of_soil_layout_user
    ∧ (reset_soil_layout_user p).1.soil_layout
        = convert_soil_layout_to_input_table_field
            (convert_soil_layout_from_mm_to_meter p.soil_layout_original)
    ∧ (applyResetResult (reset_soil_layout_user p).1 p).soil_layout_original
        = p.soil_layout_original
    ∧ (applyResetResult (reset_soil_layout_user p).1 p).bottom_of_soil_layout_user
        = p.bottom_of_soil_layout_user
    ∧ (applyResetResult (reset_soil_layout_user p).1 p).min_layer_thickness
        = p.min_layer_thickness
    ∧ (applyResetResult (reset_soil_layout_user p).1 p).ground_water_level
        = p.ground_water_level
    ∧ (applyResetResult (reset_soil_layout_user p).1 p).cpt_name = p.cpt_name :=
  ⟨rfl, rfl, rfl, rfl, rfl, rfl, rfl, rfl⟩

/-! ## File serialization for memoization (src/app/foundation/scia_model.py)

`serialize_file_to_string` base64-encodes the binary contents of a `File` or
`BytesIO`; `deserialize_string_to_file` base64-decodes back to either
wrapper.  Bytes are embedded as naturals below 256 and the produced ASCII
string as its character list (`encode`/`decode("utf-8")` of the source is
the identity on the base64 alphabet). -/

/-- The base64 alphabet in index order. -/
def b64chars : List Char :=
  ['A', 'B', 'C', 'D', 'E', 'F', 'G', 'H', 'I', 'J', 'K', 'L', 'M',
   'N', 'O', 'P', 'Q', 'R', 'S', 'T', 'U', 'V', 'W', 'X', 'Y', 'Z',
   'a', 'b', 'c', 'd', 'e', 'f', 'g', 'h', 'i', 'j', 'k', 'l', 'm',
   'n', 'o', 'p', 'q', 'r', 's', 't', 'u', 'v', 'w', 'x', 'y', 'z',
   '0', '1', '2', '3', '4', '5', '6', '7', '8', '9', '+', '/']

/-- Character of a six-bit value. -/
def sextetChar (n : Nat) : Char := b64chars.getD n 'A'

/-- Six-bit value of an alphabet character. -/
def charSextet (c : Char) : Option Nat := b64chars.findIdx? (fun x => x == c)

/-- Base64 encoding of a byte list, with `=` padding as in `base64.b64encode`. -/
def b64encode : List Nat → List Char
  | [] => []
  | [b0] => [sextetChar (b0 / 4), sextetChar (b0 % 4 * 16), '=', '=']
  | [b0, b1] => [sextetChar (b0 / 4), sextetChar (b0 % 4 * 16 + b1 / 16),
      sextetChar (b1 % 16 * 4), '=']
  | b0 :: b1 :: b2 :: rest =>
    sextetChar (b0 / 4) :: sextetChar (b0 % 4 * 16 + b1 / 16)
      :: sextetChar (b1 % 16 * 4 + b2 / 64) :: sextetChar (b2 % 64) :: b64encode rest

/-- Base64 decoding (as `base64.b64decode` on well-formed input; malformed
input yields `none`, the embedded `binascii.Error`). -/
def b64decode : List Char → Option (List Nat)
  | [] => some []
  | c0 :: c1 :: c2 :: c3 :: rest => do
    let s0 ← charSextet c0
    let s1 ← charSextet c1
    if c2 = '=' then
      if c3 = '=' ∧ rest = [] then some [s0 * 4 + s1 / 16] else none
    else do
      let s2 ← charSextet c2
      if c3 = '=' then
        if rest = [] then some [s0 * 4 + s1 / 16, s1 % 16 * 16 + s2 / 4]
        else none
      else do
        let s3 ← charSextet c3
        let tail ← b64decode rest
        some ((s0 * 4 + s1 / 16) :: (s1 % 16 * 16 + s2 / 4)
          :: (s2 % 4 * 64 + s3) :: tail)
  | _ => none

theorem charSextet_sextetChar : ∀ n, n < 64 → charSextet (sextetChar n) = some n := by
  decide

theorem sextetChar_ne_pad : ∀ n, n < 64 → sextetChar n ≠ '=' := by
  decide

theorem b64_roundtrip : ∀ (bs : List Nat), (∀ b ∈ bs, b < 256) →
    b64decode (b64encode bs) = some bs := by
  intro bs
  induction bs using b64encode.induct with
  | case1 =>
    intro _
    rfl
  | case2 b0 =>
    intro hb
    have h0 : b0 < 256 := hb b0 (by simp)
    rw [b64encode, b64decode,
      charSextet_sextetChar (b0 / 4) (by omega),
      charSextet_sextetChar (b0 % 4 * 16) (by omega)]
    simp only [Option.bind_eq_bind, Option.some_bind, if_pos rfl, and_self,
      reduceIte]
    congr 1
    congr 1
    omega
  | case3 b0 b1 =>
    intro hb
    have h0 : b0 < 256 := hb b0 (by simp)
    have h1 : b1 < 256 := hb b1 (by simp)
    rw [b64encode, b64decode,
      charSextet_sextetChar (b0 / 4) (by omega),
      charSextet_sextetChar (b0 % 4 * 16 + b1 / 16) (by omega)]
    simp only [Option.bind_eq_bind, Option.some_bind]
    rw [if_neg (sextetChar_ne_pad (b1 % 16 * 4) (by omega)),
      charSextet_sextetChar (b1 % 16 * 4) (by omega)]
    simp only [Option.some_bind, if_pos rfl, reduceIte]
    congr 1
    congr 1
    · omega
    · congr 1
      omega
  | case4 b0 b1 b2 rest ih =>
    intro hb
    have h0 : b0 < 256 := hb b0 (by simp)
    have h1 : b1 < 256 := hb b1 (by simp)
    have h2 : b2 < 256 := hb b2 (by simp)
    have hrest : ∀ b ∈ rest, b < 256 := fun b hbr => hb b (by simp [hbr])
    rw [b64encode, b64decode,
      charSextet_sextetChar (b0 / 4) (by omega),
      charSextet_sextetChar (b0 % 4 * 16 + b1 / 16) (by omega)]
    simp only [Option.bind_eq_bind, Option.some_bind]
    rw [if_neg (sextetChar_ne_pad (b1 % 16 * 4 + b2 / 64) (by omega)),
      charSextet_sextetChar (b1 % 16 * 4 + b2 / 64) (by omega)]
    simp only [Option.some_bind]
    rw [if_neg (sextetChar_ne_pad (b2 % 64) (by omega)),
      charSextet_sextetChar (b2 % 64) (by omega), ih hrest]
    simp only [Option.some_bind]
    congr 1
    congr 1
    · omega
    · congr 1
      · omega
      · congr 1
        omega

/-- The binary contents of a `viktor.File`. -/
structure PyFile where
  contents : List Nat
deriving DecidableEq

/-- The contents of a `BytesIO` stream. -/
structure PyBytesIO where
  contents : List Nat
deriving DecidableEq

/-- The `Union[BytesIO, File]` of the two functions' signatures. -/
inductive FileOrBytesIO
  | file (f : PyFile)
  | bytesio (b : PyBytesIO)
deriving DecidableEq

/-- Embedding of `serialize_file_to_string`: base64-encode the binary value
of either wrapper (the source reads `getvalue_binary()` for `File` and
`getvalue()` for `BytesIO`). -/
def serialize_file_to_string : FileOrBytesIO → List Char
  | .file f => b64encode f.contents
  | .bytesio b => b64encode b.contents

/-- Embedding of `deserialize_string_to_file`: base64-decode and wrap the
byte stream as a `BytesIO` or a `File` according to `return_bytesio`. -/
def deserialize_string_to_file (file_content : List Char)
    (return_bytesio : Bool) : Option FileOrBytesIO :=
  match b64decode file_content with
  | none => none
  | some bytes =>
    some (if return_bytesio then .bytesio ⟨bytes⟩ else .file ⟨bytes⟩)

/-- C9: `deserialize_string_to_file` recovers from
`serialize_file_to_string f` a file whose contents equal those of `f`, for
both the `File` and `BytesIO` input variants and both values of
`return_bytesio`. -/
theorem serialize_deserialize_roundtrip (b : List Nat) (hb : ∀ x ∈ b, x < 256) :
    deserialize_string_to_file (serialize_file_to_string (.file ⟨b⟩)) true
        = some (.bytesio ⟨b⟩)
    ∧ deserialize_string_to_file (serialize_file_to_string (.file ⟨b⟩)) false
        = some (.file ⟨b⟩)
    ∧ deserialize_string_to_file (serialize_file_to_string (.bytesio ⟨b⟩)) true
        = some (.bytesio ⟨b⟩)
    ∧ deserialize_string_to_file (serialize_file_to_string (.bytesio ⟨b⟩)) false
        = some (.file ⟨b⟩) := by
  have h := b64_roundtrip b hb
  refine ⟨?_, ?_, ?_, ?_⟩ <;>
    simp [deserialize_string_to_file, serialize_file_to_string, h]

/-- C9 witness: the round trip on the concrete byte list `[0, 77, 255, 10]`. -/
theorem serialize_deserialize_roundtrip_witness :
    (∀ x ∈ [0, 77, 255, 10], x < 256)
    ∧ (deserialize_string_to_file
          (serialize_file_to_string (.file ⟨[0, 77, 255, 10]⟩)) true
        = some (.bytesio ⟨[0, 77, 255, 10]⟩)
      ∧ deserialize_string_to_file
          (serialize_file_to_string (.file ⟨[0, 77, 255, 10]⟩)) false
        = some (.file ⟨[0, 77, 255, 10]⟩)
      ∧ deserialize_string_to_file
          (serialize_file_to_string (.bytesio ⟨[0, 77, 255, 10]⟩)) true
        = some (.bytesio ⟨[0, 77, 255, 10]⟩)
      ∧ deserialize_string_to_file
          (serialize_file_to_string (.bytesio ⟨[0, 77, 255, 10]⟩)) false
        = some (.file ⟨[0, 77, 255, 10]⟩)) :=
  ⟨by decide, serialize_deserialize_roundtrip [0, 77, 255, 10] (by decide)⟩

/-! ## D-Foundations result parsing (src/app/project/dfoundations_model.py)

`dfoundations_parser` splits the raw results text on newlines and, for every
line equal to `"[ITERATION]\r"`, reads fixed slices of the lines at offsets
2, 10 and 13 below it, converts them with `float`, and (re)assigns the three
result keys.  The embedding takes the raw results text (the upstream
`OutputFileParser.raw_results` is an external library accessor) and keeps
the numeric conversion abstract as a parameter `pf` (the claims concern only
the dict's keys and list lengths, never the float values); a `pf` failure is
the embedded `ValueError` of `float`, and an out-of-range line access is the
embedded `IndexError`.  The parse effects happen in the source's order; the
pure list appends are gathered into `dfApplyIteration`. -/

/-- Python `raw_results.split("\n")` on the character list: split at every
newline, keeping empty pieces (`"".split("\n") == [""]`). -/
def splitLinesCh : List Char → List (List Char)
  | [] => [[]]
  | c :: rest =>
    if c = '\n' then [] :: splitLinesCh rest
    else
      match splitLinesCh rest with
      | [] => [[c]]
      | l :: ls => (c :: l) :: ls

/-- Python `raw_results.split("\n")` on a string. -/
def splitLines (s : String) : List String :=
  (splitLinesCh s.toList).map (fun cs => String.mk cs)

/-- Python `text[i]` on a list: `IndexError` when out of range. -/
def getLine (text : List String) (i : Nat) : Except String String :=
  match text.get? i with
  | some s => .ok s
  | none => .error "list index out of range"

/-- Python `float(s)` with an abstract conversion: `ValueError` on failure. -/
def pfloat (pf : String → Option α) (s : String) : Except String α :=
  match pf s with
  | some v => .ok v
  | none => .error "could not convert string to float"

/-- Python slice `s[a:b]` (never raises). -/
def pySlice (s : String) (a b : Nat) : String := (s.take b).drop a

/-- The local lists of `dfoundations_parser` plus the result dict. -/
structure DFState (α : Type) where
  depths : List α
  shaft_gt1b : List α
  point_gt1b : List α
  total_gt1b : List α
  shaft_gt2 : List α
  point_gt2 : List α
  total_gt2 : List α
  parsed_results : List (String × List α)
deriving DecidableEq

/-- The initial empty state (`parsed_results = {}`). -/
def dfInit : DFState α := ⟨[], [], [], [], [], [], [], []⟩

/-- The five values read for one `[ITERATION]` block, in the source's parse
order: depth from `text[index+2][:6]`, shaft and point GT1B from
`text[index+10][:9]` and `[13:20]`, shaft and point GT2 from
`text[index+13][:9]` and `[13:20]`. -/
def dfReadIteration (pf : String → Option α) (text : List String) (index : Nat) :
    Except String (α × α × α × α × α) := do
  let l2 ← getLine text (index + 2)
  let depth ← pfloat pf (l2.take 6)
  let l10 ← getLine text (index + 10)
  let shaft1b ← pfloat pf (l10.take 9)
  let point1b ← pfloat pf (pySlice l10 13 20)
  let l13 ← getLine text (index + 13)
  let shaft2 ← pfloat pf (l13.take 9)
  let point2 ← pfloat pf (pySlice l13 13 20)
  pure (depth, shaft1b, point1b, shaft2, point2)

/-- The appends performed for one matched block, including the source's
totals: GT1B is shaft GT1B plus point GT1B, while the GT2 total adds the
point GT2 to the **GT1B** shaft value (exactly as written in the source),
followed by the reassignment of the three dict keys. -/
def dfApplyIteration [Add α] (v : α × α × α × α × α) (st : DFState α) : DFState α :=
  let depths := st.depths ++ [v.1]
  let total_gt1b := st.total_gt1b ++ [v.2.1 + v.2.2.1]
  let total_gt2 := st.total_gt2 ++ [v.2.1 + v.2.2.2.2]
  { depths := depths
    shaft_gt1b := st.shaft_gt1b ++ [v.2.1]
    point_gt1b := st.point_gt1b ++ [v.2.2.1]
    total_gt1b := total_gt1b
    shaft_gt2 := st.shaft_gt2 ++ [v.2.2.2.1]
    point_gt2 := st.point_gt2 ++ [v.2.2.2.2]
    total_gt2 := total_gt2
    parsed_results := [("Depth", depths), ("Bearing Strength GT1B", total_gt1b),
      ("Bearing Strength GT2", total_gt2)] }

/-- The `for index, element in enumerate(text)` loop. -/
def dfLoop [Add α] (pf : String → Option α) (text : List String) :
    List (Nat × String) → DFState α → Except String (DFState α)
  | [], st => .ok st
  | ie :: rest, st =>
    if ie.2 = "[ITERATION]\r" then
      match dfReadIteration pf text ie.1 with
      | .error e => .error e
      | .ok v => dfLoop pf text rest (dfApplyIteration v st)
    else dfLoop pf text rest st

/-- Embedding of `dfoundations_parser` (applied to the raw results text). -/
def dfoundationsParser [Add α] (pf : String → Option α) (raw : String) :
    Except String (List (String × List α)) :=
  match dfLoop pf (splitLines raw) (splitLines raw).enum dfInit with
  | .error e => .error e
  | .ok st => .ok st.parsed_results

/-- Number of `"[ITERATION]\r"` lines of the raw text. -/
def countIterations (raw : String) : Nat :=
  ((splitLines raw).filter (fun l => l == "[ITERATION]\r")).length

/-- A concrete stand-in for `float` used to run the parser on examples. -/
def pfConst : String → Option Int := fun _ => some 0

/-- C10 counterexample: on the input whose single line is `"[ITERATION]\r"`,
`dfoundations_parser` raises an `IndexError` (`text[index + 2]` is out of
range) instead of returning a dict, refuting the claim for every input
string. -/
theorem dfoundationsParser_counterexample :
    dfoundationsParser pfConst "[ITERATION]\r" = .error "list index out of range" := by
  rfl

/-- The loop invariant: the three result lists have one entry per matched
block so far, and the dict is empty before the first match and carries
exactly the three keys afterwards. -/
def dfInv (st : DFState α) (k : Nat) : Prop :=
  st.depths.length = k ∧ st.total_gt1b.length = k ∧ st.total_gt2.length = k
  ∧ st.parsed_results
      = if k = 0 then []
        else [("Depth", st.depths), ("Bearing Strength GT1B", st.total_gt1b),
          ("Bearing Strength GT2", st.total_gt2)]

theorem dfApplyIteration_inv [Add α] (v : α × α × α × α × α) (st : DFState α)
    (k : Nat) (h : dfInv st k) : dfInv (dfApplyIteration v st) (k + 1) := by
  obtain ⟨h1, h2, h3, _⟩ := h
  refine ⟨?_, ?_, ?_, ?_⟩
  · simp [dfApplyIteration, h1]
  · simp [dfApplyIteration, h2]
  · simp [dfApplyIteration, h3]
  · simp [dfApplyIteration]

theorem dfLoop_inv [Add α] (pf : String → Option α) (text : List String) :
    ∀ (l : List (Nat × String)) (st st' : DFState α) (k : Nat),
    dfInv st k → dfLoop pf text l st = .ok st' →
    dfInv st' (k + l.countP (fun ie => ie.2 == "[ITERATION]\r")) := by
  intro l
  induction l with
  | nil =>
    intro st st' k hinv h
    rw [dfLoop] at h
    cases h
    simpa using hinv
  | cons ie rest ih =>
    intro st st' k hinv h
    rw [dfLoop] at h
    by_cases hie : ie.2 = "[ITERATION]\r"
    · rw [if_pos hie] at h
      cases hread : dfReadIteration pf text ie.1 with
      | error e => rw [hread] at h; cases h
      | ok v =>
        rw [hread] at h
        have hrec := ih (dfApplyIteration v st) st' (k + 1)
          (dfApplyIteration_inv v st k hinv) h
        have hbe : (ie.2 == "[ITERATION]\r") = true := by
          simpa using hie
        have harith : k + List.countP (fun p => p.2 == "[ITERATION]\r") (ie :: rest)
            = k + 1 + List.countP (fun p => p.2 == "[ITERATION]\r") rest := by
          rw [List.countP_cons, hbe]
          norm_num
          omega
        rw [harith]
        exact hrec
    · rw [if_neg hie] at h
      have := ih st st' k hinv h
      rw [List.countP_cons]
      have hne : (ie.2 == "[ITERATION]\r") = false := by
        simpa using hie
      simp only [hne, reduceIte]
      simpa using this

theorem countP_enum_snd (p : String → Bool) (l : List String) :
    l.enum.countP (fun ie => p ie.2) = l.countP p := by
  have h1 : l.enum.countP (fun ie => p ie.2)
      = (l.enum.map Prod.snd).countP p := by
    rw [List.countP_map]
    rfl
  rw [h1, List.enum_map_snd]

/-- C10 amended: whenever `dfoundations_parser` returns without raising, the
returned dict is empty (no "Depth" key) when no line of the raw results
equals `"[ITERATION]\r"`, and otherwise maps exactly the keys "Depth",
"Bearing Strength GT1B" and "Bearing Strength GT2" to lists of equal
length, one element per `"[ITERATION]\r"` line. -/
theorem dfoundationsParser_shape [Add α] (pf : String → Option α) (raw : String)
    (d : List (String × List α)) (h : dfoundationsParser pf raw = .ok d) :
    (countIterations raw = 0 → d = [])
    ∧ (0 < countIterations raw →
        ∃ ds t1 t2, d = [("Depth", ds), ("Bearing Strength GT1B", t1),
            ("Bearing Strength GT2", t2)]
          ∧ ds.length = countIterations raw
          ∧ t1.length = countIterations raw
          ∧ t2.length = countIterations raw) := by
  rw [dfoundationsParser] at h
  cases hloop : dfLoop pf (splitLines raw) (splitLines raw).enum (dfInit : DFState α) with
  | error e => rw [hloop] at h; cases h
  | ok st =>
    rw [hloop] at h
    cases h
    have hinit : dfInv (dfInit : DFState α) 0 := by
      refine ⟨rfl, rfl, rfl, ?_⟩
      simp [dfInit]
    have hinv := dfLoop_inv pf (splitLines raw) (splitLines raw).enum dfInit st 0
      hinit hloop
    have hk : (splitLines raw).enum.countP (fun ie => ie.2 == "[ITERATION]\r")
        = countIterations raw := by
      rw [countP_enum_snd (fun l => l == "[ITERATION]\r") (splitLines raw),
        countIterations, List.countP_eq_length_filter]
    rw [hk] at hinv
    obtain ⟨h1, h2, h3, h4⟩ := hinv
    simp only [Nat.zero_add] at h1 h2 h3 h4
    constructor
    · intro hzero
      rw [h4, if_pos hzero]
    · intro hpos
      refine ⟨st.depths, st.total_gt1b, st.total_gt2, ?_, h1, h2, h3⟩
      rw [h4, if_neg (by omega)]

/-- C10 amended witness: the shape theorem applied to an input with no
iteration marker and to one well-formed single-block input. -/
theorem dfoundationsParser_shape_witness :
    (dfoundationsParser pfConst "no results here" = .ok []
      ∧ ((countIterations "no results here" = 0 → ([] : List (String × List Int)) = [])
        ∧ (0 < countIterations "no results here" →
            ∃ ds t1 t2, ([] : List (String × List Int))
                = [("Depth", ds), ("Bearing Strength GT1B", t1),
                  ("Bearing Strength GT2", t2)]
              ∧ ds.length = countIterations "no results here"
              ∧ t1.length = countIterations "no results here"
              ∧ t2.length = countIterations "no results here"))) :=
  ⟨rfl, dfoundationsParser_shape pfConst "no results here" [] rfl⟩

end PileFoundations
